import Mathlib

/-!
Verification of the angular-doctor diagnostic / scoring pipeline.

This file shallowly embeds the core pure logic of the repository:
  * `src/utils/calculate-score.ts` (scoring),
  * `src/utils/group-by.ts` and the report grouping in `src/scan.ts`,
  * `src/utils/filter-diagnostics.ts` (glob matching and ignore filtering),
  * `src/utils/combine-diagnostics.ts`,
  * `src/utils/discover-project.ts` (`getDiffInfo`, with the git queries
    abstracted as an environment of read-only functions),
  * `src/scan.ts` (`mergeScanOptions` and the analyzer orchestration),
  * `src/utils/run-knip.ts` (the retry loop of `runKnipWithOptions`).

JavaScript numbers are modelled as exact rationals (`ℚ`) — every constant
involved (100, 1.5, 0.75) and every intermediate value is an exactly
representable quarter-integer, so the rational semantics agrees with IEEE
doubles on all realistic inputs.  JavaScript `Math.round` is `⌊x + 1/2⌋`
(half-up, toward +∞).  JavaScript `Set` and `Map` are modelled as
insertion-ordered lists.
-/

namespace AngularDoctor

/-! ## Data model (`src/types.ts`) -/

/-- Severity of a diagnostic: `Diagnostic.severity` is exactly one of `"error"` / `"warning"`. -/
inductive Severity where
  | error
  | warning
deriving DecidableEq, Repr

/-- One finding, from `src/types.ts` (`interface Diagnostic`). -/
structure Diagnostic where
  filePath : String
  plugin : String
  rule : String
  severity : Severity
  message : String
  help : String
  line : Int
  column : Int
  category : String
  weight : Option ℚ := none
deriving DecidableEq, Repr

/-- The rule key `${diagnostic.plugin}/${diagnostic.rule}` used for grouping,
deduplication-for-scoring and ignore matching. -/
def ruleKey (d : Diagnostic) : String :=
  d.plugin ++ "/" ++ d.rule

/-- Embedding of `interface ScoreResult` — the score is an integer. -/
structure ScoreResult where
  score : Int
  label : String
deriving DecidableEq, Repr

/-! ## Constants (`src/constants.ts`) -/

def PERFECT_SCORE : ℚ := 100

def SCORE_GOOD_THRESHOLD : Int := 75

def SCORE_OK_THRESHOLD : Int := 50

def MAX_KNIP_RETRIES : Nat := 5

def ERROR_RULE_PENALTY : ℚ := 1.5

def WARNING_RULE_PENALTY : ℚ := 0.75

def DEFAULT_BRANCH_CANDIDATES : List String := ["main", "master"]

/-! ## Scoring (`src/utils/calculate-score.ts`) -/

/-- Embedding of `getScoreLabel` from `calculate-score.ts`. -/
def getScoreLabel (score : Int) : String :=
  if score ≥ SCORE_GOOD_THRESHOLD then "Great"
  else if score ≥ SCORE_OK_THRESHOLD then "Needs work"
  else "Critical"

/-- Model of `Set.add` of a JavaScript `Set<string>` modelled as an insertion-ordered
list without duplicates. -/
def setAdd (s : List String) (k : String) : List String :=
  if k ∈ s then s else s ++ [k]

/-- The loop body of `countUniqueRules`: route the diagnostic's rule key into
the error set or the warning set according to its severity. -/
def countRulesStep (acc : List String × List String) (d : Diagnostic) :
    List String × List String :=
  match d.severity with
  | .error => (setAdd acc.1 (ruleKey d), acc.2)
  | .warning => (acc.1, setAdd acc.2 (ruleKey d))

/-- Embedding of `countUniqueRules` from `calculate-score.ts`: the sizes of the two sets of
distinct rule keys (error-severity and warning-severity). -/
def countUniqueRules (diagnostics : List Diagnostic) : Nat × Nat :=
  let sets := diagnostics.foldl countRulesStep ([], [])
  (sets.1.length, sets.2.length)

/-- JavaScript `Math.round`: round half-up (toward +∞), `⌊x + 1/2⌋`. -/
def jsRound (x : ℚ) : Int :=
  ⌊x + 1 / 2⌋

/-- Embedding of `calculateScore` from `calculate-score.ts`. -/
def calculateScore (diagnostics : List Diagnostic) : ScoreResult :=
  let counts := countUniqueRules diagnostics
  let penalty : ℚ := counts.1 * ERROR_RULE_PENALTY + counts.2 * WARNING_RULE_PENALTY
  let score : Int := max 0 (jsRound (PERFECT_SCORE - penalty))
  { score := score, label := getScoreLabel score }

/-! ## Specification-side distinct-rule counts.

The spec speaks of "the number of distinct rule keys among error-severity
(resp. warning-severity) diagnostics"; we formalise that with `List.dedup`. -/

/-- The rule keys of the error-severity diagnostics of `D`, in order. -/
def errorKeys (diagnostics : List Diagnostic) : List String :=
  (diagnostics.filter (fun d => d.severity = .error)).map ruleKey

/-- The rule keys of the warning-severity diagnostics of `D`, in order. -/
def warningKeys (diagnostics : List Diagnostic) : List String :=
  (diagnostics.filter (fun d => d.severity = .warning)).map ruleKey

/-- Number of distinct rule keys among error-severity diagnostics. -/
def distinctErrorRuleCount (diagnostics : List Diagnostic) : Nat :=
  (errorKeys diagnostics).dedup.length

/-- Number of distinct rule keys among warning-severity diagnostics. -/
def distinctWarningRuleCount (diagnostics : List Diagnostic) : Nat :=
  (warningKeys diagnostics).dedup.length

/-! ## Lemmas: insertion-ordered sets and distinct counts -/

theorem mem_setAdd {s : List String} {k x : String} :
    x ∈ setAdd s k ↔ x ∈ s ∨ x = k := by
  unfold setAdd
  split <;> rename_i h
  · constructor
    · exact fun hx => Or.inl hx
    · rintro (hx | rfl) <;> [exact hx; exact h]
  · simp

theorem nodup_setAdd {s : List String} (hs : s.Nodup) (k : String) :
    (setAdd s k).Nodup := by
  unfold setAdd
  split <;> rename_i h
  · exact hs
  · simpa [List.nodup_append] using ⟨hs, h⟩

theorem mem_foldl_setAdd (l : List String) :
    ∀ (acc : List String) (x : String),
      x ∈ l.foldl setAdd acc ↔ x ∈ acc ∨ x ∈ l := by
  induction l with
  | nil => simp
  | cons a l ih =>
    intro acc x
    rw [List.foldl_cons, ih, mem_setAdd]
    simp only [List.mem_cons]
    tauto

theorem nodup_foldl_setAdd (l : List String) :
    ∀ (acc : List String), acc.Nodup → (l.foldl setAdd acc).Nodup := by
  induction l with
  | nil => exact fun _ h => h
  | cons a l ih => exact fun acc hacc => ih _ (nodup_setAdd hacc a)

/-- The size of the insertion-ordered set built from `l` is the number of
distinct elements of `l`. -/
theorem length_foldl_setAdd (l : List String) :
    (l.foldl setAdd []).length = l.dedup.length := by
  have hperm : List.Perm (l.foldl setAdd []) l.dedup := by
    rw [List.perm_ext_iff_of_nodup (nodup_foldl_setAdd l [] (by simp)) l.nodup_dedup]
    intro x
    rw [mem_foldl_setAdd, List.mem_dedup]
    simp
  exact hperm.length_eq

theorem foldl_countRulesStep (diagnostics : List Diagnostic) :
    ∀ (e w : List String),
      diagnostics.foldl countRulesStep (e, w)
        = ((errorKeys diagnostics).foldl setAdd e,
           (warningKeys diagnostics).foldl setAdd w) := by
  induction diagnostics with
  | nil => intro e w; simp [errorKeys, warningKeys]
  | cons d ds ih =>
    intro e w
    rw [List.foldl_cons]
    cases hsev : d.severity with
    | error =>
      rw [show countRulesStep (e, w) d = (setAdd e (ruleKey d), w) by
            simp [countRulesStep, hsev]]
      rw [ih]
      simp [errorKeys, warningKeys, hsev, List.filter_cons]
    | warning =>
      rw [show countRulesStep (e, w) d = (e, setAdd w (ruleKey d)) by
            simp [countRulesStep, hsev]]
      rw [ih]
      simp [errorKeys, warningKeys, hsev, List.filter_cons]

/-- Correctness of the counts: `countUniqueRules` computes exactly the distinct-rule-key counts of the
error- and warning-severity diagnostics. -/
theorem countUniqueRules_eq (diagnostics : List Diagnostic) :
    countUniqueRules diagnostics
      = (distinctErrorRuleCount diagnostics, distinctWarningRuleCount diagnostics) := by
  unfold countUniqueRules distinctErrorRuleCount distinctWarningRuleCount
  rw [foldl_countRulesStep diagnostics [] []]
  simp [length_foldl_setAdd]

/-- Closed form of the score in terms of the distinct-rule-key counts. -/
theorem calculateScore_closed (D : List Diagnostic) :
    (calculateScore D).score
      = max 0 ⌊(100 : ℚ) - 1.5 * (distinctErrorRuleCount D : ℚ)
                - 0.75 * (distinctWarningRuleCount D : ℚ) + 1 / 2⌋ := by
  unfold calculateScore jsRound PERFECT_SCORE ERROR_RULE_PENALTY WARNING_RULE_PENALTY
  rw [countUniqueRules_eq]
  ring_nf

theorem jsRound_sub_nonneg_le (p : ℚ) (hp : 0 ≤ p) : jsRound (100 - p) ≤ 100 := by
  unfold jsRound
  have h1 : (100 : ℚ) - p + 1 / 2 ≤ 201 / 2 := by linarith
  calc ⌊(100 : ℚ) - p + 1 / 2⌋ ≤ ⌊(201 : ℚ) / 2⌋ := Int.floor_le_floor h1
    _ = 100 := by norm_num

/-- Shifting the argument of the floor down by `3/2` drops the floor by at
least one. -/
theorem floor_sub_three_halves_le (q : ℚ) : ⌊q - 3 / 2⌋ ≤ ⌊q⌋ - 1 := by
  have h1 : ⌊q - 3 / 2⌋ ≤ ⌊q - (1 : ℤ)⌋ := Int.floor_le_floor (by push_cast; linarith)
  rw [Int.floor_sub_int] at h1
  exact h1

/-- Behaviour of `max 0 ⌊·⌋` under a penalty increase of `3/2`: the clamped
value strictly decreases unless it is already `0`, in which case it stays `0`. -/
theorem maxfloor_penalty_step (q : ℚ) :
    max 0 ⌊q - 3 / 2⌋ < max 0 ⌊q⌋ ∨ (max 0 ⌊q⌋ = 0 ∧ max 0 ⌊q - 3 / 2⌋ = 0) := by
  have hle := floor_sub_three_halves_le q
  rcases le_or_lt ⌊q⌋ 0 with h | h
  · right
    constructor
    · exact max_eq_left h
    · exact max_eq_left (by omega)
  · left
    rw [max_eq_right h.le]
    rcases le_or_lt ⌊q - 3 / 2⌋ 0 with h2 | h2
    · rw [max_eq_left h2]; exact h
    · rw [max_eq_right h2.le]; omega

/-! Effect of appending one diagnostic on the distinct-rule-key counts. -/

theorem errorKeys_append (D : List Diagnostic) (d : Diagnostic) :
    errorKeys (D ++ [d])
      = errorKeys D ++ (if d.severity = .error then [ruleKey d] else []) := by
  unfold errorKeys
  rw [List.filter_append, List.map_append]
  congr 1
  split <;> rename_i h <;> simp [List.filter_cons, h]

theorem warningKeys_append (D : List Diagnostic) (d : Diagnostic) :
    warningKeys (D ++ [d])
      = warningKeys D ++ (if d.severity = .warning then [ruleKey d] else []) := by
  unfold warningKeys
  rw [List.filter_append, List.map_append]
  congr 1
  split <;> rename_i h <;> simp [List.filter_cons, h]

theorem length_setAdd (s : List String) (k : String) :
    (setAdd s k).length = if k ∈ s then s.length else s.length + 1 := by
  unfold setAdd
  split <;> simp

/-- Distinct count of `l ++ [k]`: grows by one exactly when `k` is new. -/
theorem dedup_length_append_single (l : List String) (k : String) :
    (l ++ [k]).dedup.length = if k ∈ l then l.dedup.length else l.dedup.length + 1 := by
  rw [← length_foldl_setAdd, ← length_foldl_setAdd, List.foldl_append]
  simp only [List.foldl_cons, List.foldl_nil]
  have hmem : k ∈ l.foldl setAdd [] ↔ k ∈ l := by
    rw [mem_foldl_setAdd]; simp
  by_cases h : k ∈ l
  · rw [if_pos h, length_setAdd, if_pos (hmem.mpr h)]
  · rw [if_neg h, length_setAdd, if_neg (fun hk => h (hmem.mp hk))]

theorem distinctCounts_append_fresh_error (D : List Diagnostic) (d : Diagnostic)
    (hsev : d.severity = .error) (hfresh : ruleKey d ∉ D.map ruleKey) :
    distinctErrorRuleCount (D ++ [d]) = distinctErrorRuleCount D + 1
      ∧ distinctWarningRuleCount (D ++ [d]) = distinctWarningRuleCount D := by
  have hfreshErr : ruleKey d ∉ errorKeys D := by
    intro hmem
    exact hfresh (by
      unfold errorKeys at hmem
      rcases List.mem_map.mp hmem with ⟨x, hx, hkey⟩
      exact List.mem_map.mpr ⟨x, List.mem_of_mem_filter hx, hkey⟩)
  constructor
  · unfold distinctErrorRuleCount
    rw [errorKeys_append, if_pos hsev, dedup_length_append_single,
      if_neg hfreshErr]
  · unfold distinctWarningRuleCount
    rw [warningKeys_append, if_neg (by rw [hsev]; intro h; cases h)]
    simp

theorem distinctCounts_append_present (D : List Diagnostic) (d : Diagnostic)
    (hpresent : (d.severity = .error ∧ ruleKey d ∈ errorKeys D)
      ∨ (d.severity = .warning ∧ ruleKey d ∈ warningKeys D)) :
    distinctErrorRuleCount (D ++ [d]) = distinctErrorRuleCount D
      ∧ distinctWarningRuleCount (D ++ [d]) = distinctWarningRuleCount D := by
  rcases hpresent with ⟨hsev, hmem⟩ | ⟨hsev, hmem⟩
  · constructor
    · unfold distinctErrorRuleCount
      rw [errorKeys_append, if_pos hsev, dedup_length_append_single, if_pos hmem]
    · unfold distinctWarningRuleCount
      rw [warningKeys_append, if_neg (by rw [hsev]; intro h; cases h)]
      simp
  · constructor
    · unfold distinctErrorRuleCount
      rw [errorKeys_append, if_neg (by rw [hsev]; intro h; cases h)]
      simp
    · unfold distinctWarningRuleCount
      rw [warningKeys_append, if_pos hsev, dedup_length_append_single, if_pos hmem]

/-- C1: for every diagnostic list `D`, `calculateScore(D).score` equals
`max(0, round(100 − 1.5 × #distinct error rule keys − 0.75 × #distinct
warning rule keys))`, the score is an integer in `[0, 100]`, and the score of
the empty list is `100`. -/
theorem claim_C1 : ∀ D : List Diagnostic,
    (calculateScore D).score
        = max 0 (jsRound ((100 : ℚ) - 1.5 * (distinctErrorRuleCount D : ℚ)
            - 0.75 * (distinctWarningRuleCount D : ℚ)))
      ∧ 0 ≤ (calculateScore D).score
      ∧ (calculateScore D).score ≤ 100
      ∧ (calculateScore ([] : List Diagnostic)).score = 100 := by
  intro D
  refine ⟨?_, ?_, ?_, ?_⟩
  · rw [calculateScore_closed]
    rfl
  · rw [calculateScore_closed]
    exact le_max_left _ _
  · rw [calculateScore_closed]
    refine max_le (by norm_num) ?_
    have hform : (100 : ℚ) - 1.5 * (distinctErrorRuleCount D : ℚ)
        - 0.75 * (distinctWarningRuleCount D : ℚ) + 1 / 2
        = (100 - (1.5 * (distinctErrorRuleCount D : ℚ)
            + 0.75 * (distinctWarningRuleCount D : ℚ))) + 1 / 2 := by ring
    have hp : (0 : ℚ) ≤ 1.5 * (distinctErrorRuleCount D : ℚ)
        + 0.75 * (distinctWarningRuleCount D : ℚ) := by positivity
    have := jsRound_sub_nonneg_le _ hp
    unfold jsRound at this
    rw [hform]
    exact this
  · rw [calculateScore_closed]
    norm_num [distinctErrorRuleCount, distinctWarningRuleCount, errorKeys, warningKeys]

/-- A warning-severity finding used in concrete counterexamples. -/
def cexWarning : Diagnostic :=
  { filePath := "src/app.ts", plugin := "p", rule := "r", severity := .warning,
    message := "m", help := "", line := 1, column := 1, category := "c" }

/-- An error-severity finding with the same rule key `p/r` as `cexWarning`. -/
def cexError : Diagnostic :=
  { filePath := "src/app.ts", plugin := "p", rule := "r", severity := .error,
    message := "m2", help := "", line := 2, column := 1, category := "c" }

/-- An error-severity finding with a fresh rule key `p/q`. -/
def cexFresh : Diagnostic :=
  { filePath := "src/app.ts", plugin := "p", rule := "q", severity := .error,
    message := "m3", help := "", line := 3, column := 1, category := "c" }

/-- C2 counterexample: appending an error-severity diagnostic whose rule key
already occurs in `D` — but only on a warning-severity diagnostic — changes
the score: `calculateScore` deduplicates rule keys per severity class, so the
key enters the error set anew.  Here `D = [cexWarning]` scores `99` while
`D ++ [cexError]` scores `98`, although `ruleKey cexError` already occurs
in `D`. -/
theorem claim_C2_counterexample :
    ruleKey cexError ∈ [cexWarning].map ruleKey
      ∧ (calculateScore [cexWarning, cexError]).score
          ≠ (calculateScore [cexWarning]).score := by
  constructor
  · decide
  · have h1 : (calculateScore [cexWarning, cexError]).score = 98 := by
      rw [calculateScore_closed]
      rw [show distinctErrorRuleCount [cexWarning, cexError] = 1 from by decide]
      rw [show distinctWarningRuleCount [cexWarning, cexError] = 1 from by decide]
      norm_num
    have h2 : (calculateScore [cexWarning]).score = 99 := by
      rw [calculateScore_closed]
      rw [show distinctErrorRuleCount [cexWarning] = 0 from by decide]
      rw [show distinctWarningRuleCount [cexWarning] = 1 from by decide]
      norm_num
    rw [h1, h2]
    decide

/-- C2 (amended): appending an error-severity diagnostic with a rule key
occurring in no diagnostic of `D` strictly decreases the score unless the
score is already floored at `0`; appending a diagnostic whose rule key
already occurs among the diagnostics of `D` *of the same severity* never
changes the score; and duplicating any diagnostic of `D` never changes the
score. -/
theorem claim_C2_amended (D : List Diagnostic) (d : Diagnostic) :
    (d.severity = .error → ruleKey d ∉ D.map ruleKey →
      (calculateScore (D ++ [d])).score < (calculateScore D).score
        ∨ ((calculateScore D).score = 0 ∧ (calculateScore (D ++ [d])).score = 0))
    ∧ (ruleKey d ∈ (D.filter (fun x => x.severity = d.severity)).map ruleKey →
        (calculateScore (D ++ [d])).score = (calculateScore D).score)
    ∧ (d ∈ D →
        (calculateScore (D ++ [d])).score = (calculateScore D).score) := by
  have present_case : ruleKey d ∈ (D.filter (fun x => x.severity = d.severity)).map ruleKey →
      (calculateScore (D ++ [d])).score = (calculateScore D).score := by
    intro hmem
    have hcounts : distinctErrorRuleCount (D ++ [d]) = distinctErrorRuleCount D
        ∧ distinctWarningRuleCount (D ++ [d]) = distinctWarningRuleCount D := by
      apply distinctCounts_append_present
      cases hsev : d.severity with
      | error =>
        left
        refine ⟨rfl, ?_⟩
        unfold errorKeys
        rw [hsev] at hmem
        exact hmem
      | warning =>
        right
        refine ⟨rfl, ?_⟩
        unfold warningKeys
        rw [hsev] at hmem
        exact hmem
    rw [calculateScore_closed, calculateScore_closed, hcounts.1, hcounts.2]
  refine ⟨?_, present_case, ?_⟩
  · intro hsev hfresh
    obtain ⟨he, hw⟩ := distinctCounts_append_fresh_error D d hsev hfresh
    rw [calculateScore_closed, calculateScore_closed, he, hw]
    have hq : (100 : ℚ) - 1.5 * ((distinctErrorRuleCount D + 1 : ℕ) : ℚ)
        - 0.75 * (distinctWarningRuleCount D : ℚ) + 1 / 2
        = ((100 : ℚ) - 1.5 * (distinctErrorRuleCount D : ℚ)
            - 0.75 * (distinctWarningRuleCount D : ℚ) + 1 / 2) - 3 / 2 := by
      push_cast
      ring
    rw [hq]
    exact maxfloor_penalty_step _
  · intro hd
    apply present_case
    exact List.mem_map.mpr ⟨d, List.mem_filter.mpr ⟨hd, by simp⟩, rfl⟩

/-- C2 witness: appending the fresh-keyed error `cexFresh` to `[cexWarning]`
strictly decreases the score (or both are zero). -/
theorem claim_C2_amended_witness :
    (calculateScore ([cexWarning] ++ [cexFresh])).score
        < (calculateScore [cexWarning]).score
      ∨ ((calculateScore [cexWarning]).score = 0
          ∧ (calculateScore ([cexWarning] ++ [cexFresh])).score = 0) :=
  (claim_C2_amended [cexWarning] cexFresh).1 (by decide) (by decide)

/-- C3: `getScoreLabel` maps `s ≥ 75` to `"Great"`, `50 ≤ s < 75` to
`"Needs work"` and `s < 50` to `"Critical"`, with the stated boundary
values. -/
theorem claim_C3 :
    (∀ s : Int, getScoreLabel s
        = if 75 ≤ s then "Great" else if 50 ≤ s then "Needs work" else "Critical")
      ∧ getScoreLabel 75 = "Great"
      ∧ getScoreLabel 74 = "Needs work"
      ∧ getScoreLabel 50 = "Needs work"
      ∧ getScoreLabel 49 = "Critical" := by
  refine ⟨fun s => ?_, by decide, by decide, by decide, by decide⟩
  unfold getScoreLabel SCORE_GOOD_THRESHOLD SCORE_OK_THRESHOLD
  rfl

/-! ## Grouping (`src/utils/group-by.ts`) and report ordering (`src/scan.ts`) -/

/-- One `map.set(k, group)` step of `groupBy`: append `x` to the group of `k`,
creating the group at the end when `k` is new (JS `Map` preserves insertion
order). -/
def updateGroup {T : Type} (acc : List (String × List T)) (k : String) (x : T) :
    List (String × List T) :=
  match acc with
  | [] => [(k, [x])]
  | (k', g) :: rest =>
      if k' = k then (k', g ++ [x]) :: rest else (k', g) :: updateGroup rest k x

/-- Embedding of `groupBy` from `group-by.ts`, the JS `Map<string, T[]>` modelled as an
insertion-ordered association list. -/
def groupBy {T : Type} (items : List T) (key : T → String) :
    List (String × List T) :=
  items.foldl (fun acc x => updateGroup acc (key x) x) []

/-- Embedding of `SEVERITY_ORDER` from `scan.ts`: `error ↦ 0`, `warning ↦ 1`. -/
def SEVERITY_ORDER : Severity → Nat
  | .error => 0
  | .warning => 1

/-- The sort key of a diagnostic group in `sortBySeverity`: the severity of
its first diagnostic (`diagnostics[0].severity`).  Groups produced by
`groupBy` are never empty; the `[]` case is unreachable. -/
def groupSeverityRank (g : String × List Diagnostic) : Nat :=
  match g.2 with
  | d :: _ => SEVERITY_ORDER d.severity
  | [] => 0

/-- Embedding of `sortBySeverity` from `scan.ts`: `toSorted` with the comparator
`SEVERITY_ORDER a − SEVERITY_ORDER b` is a stable sort; we model it with the
stable `List.mergeSort` under the corresponding `≤` relation. -/
def sortBySeverity (diagnosticGroups : List (String × List Diagnostic)) :
    List (String × List Diagnostic) :=
  diagnosticGroups.mergeSort (fun a b => groupSeverityRank a ≤ groupSeverityRank b)

/-- The distinct elements of `l`, in order of first occurrence. -/
def firstOccurrences (l : List String) : List String :=
  l.foldl setAdd []

/-- A JS-`Map.get` on the association-list model. -/
def lookupGroup {T : Type} : List (String × List T) → String → Option (List T)
  | [], _ => none
  | (k', g) :: rest, k => if k' = k then some g else lookupGroup rest k

theorem map_fst_updateGroup {T : Type} (acc : List (String × List T)) (k : String) (x : T) :
    (updateGroup acc k x).map Prod.fst = setAdd (acc.map Prod.fst) k := by
  induction acc with
  | nil => simp [updateGroup, setAdd]
  | cons a rest ih =>
    obtain ⟨k', g⟩ := a
    unfold updateGroup
    by_cases h : k' = k
    · subst h
      simp [setAdd]
    · simp only [if_neg h, List.map_cons, ih]
      unfold setAdd
      have hiff : k ∈ k' :: rest.map Prod.fst ↔ k ∈ rest.map Prod.fst := by
        constructor
        · intro hm
          rcases List.mem_cons.mp hm with h1 | h1
          · exact absurd h1.symm h
          · exact h1
        · exact fun hm => List.mem_cons.mpr (Or.inr hm)
      by_cases hk : k ∈ rest.map Prod.fst
      · rw [if_pos hk, if_pos (hiff.mpr hk)]
      · rw [if_neg hk, if_neg (fun hm => hk (hiff.mp hm))]
        simp

theorem map_fst_groupBy_aux {T : Type} (items : List T) (key : T → String) :
    ∀ acc : List (String × List T),
      (items.foldl (fun acc x => updateGroup acc (key x) x) acc).map Prod.fst
        = (items.map key).foldl setAdd (acc.map Prod.fst) := by
  induction items with
  | nil => intro acc; simp
  | cons x xs ih =>
    intro acc
    simp only [List.foldl_cons, List.map_cons]
    rw [ih, map_fst_updateGroup]

/-- The group keys of `groupBy` are the keys of the items in order of first
occurrence. -/
theorem map_fst_groupBy {T : Type} (items : List T) (key : T → String) :
    (groupBy items key).map Prod.fst = firstOccurrences (items.map key) := by
  unfold groupBy firstOccurrences
  simpa using map_fst_groupBy_aux items key []

theorem lookup_updateGroup {T : Type} (acc : List (String × List T)) (k k' : String) (x : T) :
    lookupGroup (updateGroup acc k x) k'
      = if k' = k then some ((lookupGroup acc k).getD [] ++ [x])
        else lookupGroup acc k' := by
  induction acc with
  | nil =>
    simp only [updateGroup, lookupGroup]
    by_cases h : k' = k
    · subst h
      rw [if_pos rfl, if_pos rfl]
      rfl
    · rw [if_neg (fun hk => h hk.symm), if_neg h]
  | cons a rest ih =>
    obtain ⟨a1, g⟩ := a
    simp only [updateGroup, lookupGroup]
    by_cases ha : a1 = k
    · subst ha
      simp only [if_pos rfl, lookupGroup]
      by_cases h : a1 = k'
      · subst h
        rw [if_pos rfl, if_pos rfl]
        rfl
      · rw [if_neg h, if_neg (fun hk => h hk.symm)]
        rw [if_neg h]
    · rw [if_neg ha]
      simp only [lookupGroup]
      by_cases h : a1 = k'
      · subst h
        have hk'k : ¬ a1 = k := ha
        rw [if_pos rfl, if_pos rfl, if_neg hk'k]
      · rw [if_neg h, if_neg h, ih]
        by_cases hkk : k' = k
        · rw [if_pos hkk, if_pos hkk, if_neg ha]
        · rw [if_neg hkk, if_neg hkk]

theorem lookup_groupBy_aux {T : Type} [DecidableEq T] (key : T → String) (k : String) (items : List T) :
    ∀ acc : List (String × List T),
      lookupGroup (items.foldl (fun acc x => updateGroup acc (key x) x) acc) k
        = if items.filter (fun y => key y = k) = [] then lookupGroup acc k
          else some ((lookupGroup acc k).getD []
            ++ items.filter (fun y => key y = k)) := by
  induction items with
  | nil => intro acc; simp
  | cons x xs ih =>
    intro acc
    simp only [List.foldl_cons]
    rw [ih]
    by_cases hx : key x = k
    · have hfilter : (x :: xs).filter (fun y => key y = k)
          = x :: xs.filter (fun y => key y = k) := by
        simp [List.filter_cons, hx]
      have hlook : lookupGroup (updateGroup acc (key x) x) k
          = some ((lookupGroup acc k).getD [] ++ [x]) := by
        rw [lookup_updateGroup, if_pos hx.symm, hx]
      by_cases hxs : xs.filter (fun y => key y = k) = []
      · rw [if_pos hxs, hlook, hfilter, hxs]
        simp
      · rw [if_neg hxs, hlook, hfilter]
        rw [if_neg (by simp [hxs])]
        simp
    · have hfilter : (x :: xs).filter (fun y => key y = k)
          = xs.filter (fun y => key y = k) := by
        simp [List.filter_cons, hx]
      have hlook : lookupGroup (updateGroup acc (key x) x) k = lookupGroup acc k := by
        rw [lookup_updateGroup, if_neg (fun hk => hx hk.symm)]
      rw [hfilter, hlook]

/-- Lookup form: `groupBy` groups are exactly the filters of the input by key. -/
theorem lookup_groupBy {T : Type} [DecidableEq T] (items : List T) (key : T → String) (k : String) :
    lookupGroup (groupBy items key) k
      = if items.filter (fun y => key y = k) = [] then none
        else some (items.filter (fun y => key y = k)) := by
  unfold groupBy
  rw [lookup_groupBy_aux key k items []]
  simp [lookupGroup]

theorem lookup_of_mem_nodupKeys {T : Type} :
    ∀ (assocs : List (String × List T)) (k : String) (g : List T),
      (k, g) ∈ assocs → (assocs.map Prod.fst).Nodup → lookupGroup assocs k = some g := by
  intro assocs
  induction assocs with
  | nil => intro k g h; cases h
  | cons a rest ih =>
    intro k g hmem hnodup
    obtain ⟨a1, g1⟩ := a
    rcases List.mem_cons.mp hmem with heq | htail
    · injection heq with h1 h2
      subst h1
      subst h2
      simp [lookupGroup]
    · unfold lookupGroup
      have hk : a1 ≠ k := by
        intro h
        subst h
        have : a1 ∈ rest.map Prod.fst := List.mem_map.mpr ⟨(a1, g), htail, rfl⟩
        simp only [List.map_cons, List.nodup_cons] at hnodup
        exact hnodup.1 this
      rw [if_neg hk]
      exact ih k g htail (by simp only [List.map_cons, List.nodup_cons] at hnodup; exact hnodup.2)

theorem nodup_keys_groupBy {T : Type} (items : List T) (key : T → String) :
    ((groupBy items key).map Prod.fst).Nodup := by
  rw [map_fst_groupBy]
  exact nodup_foldl_setAdd _ [] (by simp)

/-- Membership form: every group of `groupBy items key` is the nonempty filter
of the items by its key. -/
theorem mem_groupBy {T : Type} [DecidableEq T] (items : List T) (key : T → String) (k : String)
    (g : List T) (hmem : (k, g) ∈ groupBy items key) :
    g = items.filter (fun y => key y = k) ∧ g ≠ [] := by
  have hlook := lookup_of_mem_nodupKeys (groupBy items key) k g hmem
    (nodup_keys_groupBy items key)
  rw [lookup_groupBy] at hlook
  by_cases hfil : items.filter (fun y => key y = k) = []
  · rw [if_pos hfil] at hlook
    cases hlook
  · rw [if_neg hfil] at hlook
    injection hlook with h
    exact ⟨h.symm, fun hg => hfil (h.trans hg)⟩

theorem groupSeverityRank_le_one (g : String × List Diagnostic) :
    groupSeverityRank g ≤ 1 := by
  obtain ⟨k, gs⟩ := g
  cases gs with
  | nil => simp [groupSeverityRank]
  | cons d rest =>
    cases hs : d.severity <;> simp [groupSeverityRank, SEVERITY_ORDER, hs]

/-- The stable sort of `sortBySeverity` under the two-valued severity rank is
the stable partition: all rank-0 (error) groups first, then all rank-1
(warning) groups, each block in input order. -/
theorem sortBySeverity_eq_partition (l : List (String × List Diagnostic)) :
    sortBySeverity l
      = l.filter (fun g => groupSeverityRank g = 0)
        ++ l.filter (fun g => ¬ groupSeverityRank g = 0) := by
  unfold sortBySeverity
  have htrans : ∀ a b c : String × List Diagnostic,
      (decide (groupSeverityRank a ≤ groupSeverityRank b)) = true →
      (decide (groupSeverityRank b ≤ groupSeverityRank c)) = true →
      (decide (groupSeverityRank a ≤ groupSeverityRank c)) = true := by
    intro a b c hab hbc
    simp only [decide_eq_true_eq] at *
    omega
  have htotal : ∀ a b : String × List Diagnostic,
      ((decide (groupSeverityRank a ≤ groupSeverityRank b))
        || (decide (groupSeverityRank b ≤ groupSeverityRank a))) = true := by
    intro a b
    rcases Nat.le_total (groupSeverityRank a) (groupSeverityRank b) with h | h <;>
      simp [h]
  induction l with
  | nil => simp
  | cons a l ih =>
    obtain ⟨l₁, l₂, hsplit, hmerge, hl₁⟩ := List.mergeSort_cons htrans htotal a l
    by_cases hpa : groupSeverityRank a = 0
    · have hl₁nil : l₁ = [] := by
        rw [List.eq_nil_iff_forall_not_mem]
        intro b hb
        have hba := hl₁ b hb
        simp only [Bool.not_eq_true', decide_eq_false_iff_not] at hba
        exact hba (by omega)
      rw [hsplit, hl₁nil, List.nil_append]
      rw [hl₁nil, List.nil_append] at hmerge
      rw [List.filter_cons_of_pos (by simpa using hpa),
        List.filter_cons_of_neg (by simpa using hpa)]
      rw [List.cons_append]
      rw [← ih, hmerge]
    · have hsorted := List.sorted_mergeSort htrans htotal (a :: l)
      rw [hsplit] at hsorted
      have hl₂w : ∀ b ∈ l₂, ¬ groupSeverityRank b = 0 := by
        intro b hb
        have hpw := hsorted.sublist (List.sublist_append_right l₁ (a :: l₂))
        have hab := (List.pairwise_cons.mp hpw).1 b hb
        have hab' : groupSeverityRank a ≤ groupSeverityRank b := by
          simpa using hab
        intro h0
        rw [h0] at hab'
        exact hpa (Nat.le_zero.mp hab')
      have hl₁p : ∀ b ∈ l₁, groupSeverityRank b = 0 := by
        intro b hb
        have hba := hl₁ b hb
        have hba' : ¬ groupSeverityRank a ≤ groupSeverityRank b := by
          simpa using hba
        have ha1 := groupSeverityRank_le_one a
        omega
      have key : l₁ ++ l₂
          = l.filter (fun g => groupSeverityRank g = 0)
            ++ l.filter (fun g => ¬ groupSeverityRank g = 0) :=
        hmerge.symm.trans ih
      have hfl₁self : l₁.filter (fun g => groupSeverityRank g = 0) = l₁ :=
        List.filter_eq_self.mpr (fun b hb => by simpa using hl₁p b hb)
      have hfl₂nil : l₂.filter (fun g => groupSeverityRank g = 0) = [] :=
        List.filter_eq_nil_iff.mpr (fun b hb => by simpa using hl₂w b hb)
      have hfl₁nil : l₁.filter (fun g => ¬ groupSeverityRank g = 0) = [] :=
        List.filter_eq_nil_iff.mpr (fun b hb => by simpa using hl₁p b hb)
      have hfl₂self : l₂.filter (fun g => ¬ groupSeverityRank g = 0) = l₂ :=
        List.filter_eq_self.mpr (fun b hb => by simpa using hl₂w b hb)
      have hfilp : ∀ m : List (String × List Diagnostic),
          (m.filter (fun g => groupSeverityRank g = 0)).filter
              (fun g => groupSeverityRank g = 0)
            = m.filter (fun g => groupSeverityRank g = 0) := by
        intro m
        rw [List.filter_eq_self]
        intro b hb
        exact (List.mem_filter.mp hb).2
      have hfilnp : ∀ m : List (String × List Diagnostic),
          (m.filter (fun g => ¬ groupSeverityRank g = 0)).filter
              (fun g => groupSeverityRank g = 0)
            = [] := by
        intro m
        rw [List.filter_eq_nil_iff]
        intro b hb
        have hmem := (List.mem_filter.mp hb).2
        simp only [decide_eq_true_eq] at hmem ⊢
        exact hmem
      have hfilp' : ∀ m : List (String × List Diagnostic),
          (m.filter (fun g => groupSeverityRank g = 0)).filter
              (fun g => ¬ groupSeverityRank g = 0)
            = [] := by
        intro m
        rw [List.filter_eq_nil_iff]
        intro b hb
        have hmem := (List.mem_filter.mp hb).2
        simp only [decide_eq_true_eq] at hmem ⊢
        simpa using hmem
      have hfilnp' : ∀ m : List (String × List Diagnostic),
          (m.filter (fun g => ¬ groupSeverityRank g = 0)).filter
              (fun g => ¬ groupSeverityRank g = 0)
            = m.filter (fun g => ¬ groupSeverityRank g = 0) := by
        intro m
        rw [List.filter_eq_self]
        intro b hb
        exact (List.mem_filter.mp hb).2
      have hl₁eq : l₁ = l.filter (fun g => groupSeverityRank g = 0) := by
        calc l₁ = (l₁ ++ l₂).filter (fun g => groupSeverityRank g = 0) := by
              rw [List.filter_append, hfl₁self, hfl₂nil, List.append_nil]
          _ = l.filter (fun g => groupSeverityRank g = 0) := by
              rw [key, List.filter_append, hfilp, hfilnp, List.append_nil]
      have hl₂eq : l₂ = l.filter (fun g => ¬ groupSeverityRank g = 0) := by
        calc l₂ = (l₁ ++ l₂).filter (fun g => ¬ groupSeverityRank g = 0) := by
              rw [List.filter_append, hfl₁nil, hfl₂self, List.nil_append]
          _ = l.filter (fun g => ¬ groupSeverityRank g = 0) := by
              rw [key, List.filter_append, hfilp', hfilnp', List.nil_append]
      rw [hsplit, hl₁eq, hl₂eq]
      rw [List.filter_cons_of_neg (by simpa using hpa),
        List.filter_cons_of_pos (by simpa using hpa)]

/-- C9: the report assembler groups diagnostics by rule key with group keys in
first-occurrence order, each group being the (nonempty) filter of the input by
its rule key, and `sortBySeverity` stably orders the groups: all groups whose
(first diagnostic's) severity is `error` come first, then all `warning`
groups, each block preserving first-occurrence order. -/
theorem claim_C9 (D : List Diagnostic) :
    ((groupBy D ruleKey).map Prod.fst = firstOccurrences (D.map ruleKey))
      ∧ (∀ k g, (k, g) ∈ groupBy D ruleKey →
          g = D.filter (fun d => ruleKey d = k) ∧ g ≠ [])
      ∧ sortBySeverity (groupBy D ruleKey)
          = (groupBy D ruleKey).filter (fun g => groupSeverityRank g = 0)
            ++ (groupBy D ruleKey).filter (fun g => ¬ groupSeverityRank g = 0) := by
  refine ⟨map_fst_groupBy D ruleKey, ?_, sortBySeverity_eq_partition _⟩
  intro k g hmem
  exact mem_groupBy D ruleKey k g hmem

/-- C9 witness: concrete instantiation of the grouping characterisation at
`D = [cexWarning, cexError]`, whose single group has key `p/r`. -/
theorem claim_C9_witness :
    [cexWarning, cexError]
        = List.filter (fun d => ruleKey d = "p/r") [cexWarning, cexError]
      ∧ [cexWarning, cexError] ≠ ([] : List Diagnostic) :=
  (claim_C9 [cexWarning, cexError]).2.1 "p/r" [cexWarning, cexError] (by decide)

/-! ## Glob matching (`src/utils/filter-diagnostics.ts`)

`matchesGlob` builds a regex in three string-rewriting passes and tests it
anchored (`^...$`):
  1. escape the characters of the class `[.+^$\x7b\x7d()|[\]\\]`,
  2. replace `**` by `.*` (global, left to right),
  3. replace `*` by `[^/]*` (global, left to right — note that this pass also
     rewrites the `*` of any `.*` produced by pass 2).
The resulting regex dialect only contains literal characters, escaped
characters, `.`, the class `[^/]`, and the quantifiers `*` and `?` (an
unescaped `?` of the original pattern survives as a quantifier), so we give
it a direct executable semantics instead of a full regex engine.  An invalid
regex (e.g. a leading `?`, for which `new RegExp` throws) is modelled as
`none`. -/

/-- The character class `[.+^$\x7b\x7d()|[\]\\]` of the escaping pass. -/
def isRegexMetaChar (c : Char) : Bool :=
  c = '.' || c = '+' || c = '^' || c = '$' || c = '\x7b' || c = '\x7d' ||
    c = '(' || c = ')' || c = '|' || c = '[' || c = ']' || c = '\\'

/-- Pass 1: `pattern.replace(/[.+^$\x7b\x7d()|[\]\\]/g, "\\$&")`. -/
def escapeRegexChars : List Char → List Char
  | [] => []
  | c :: rest =>
      (if isRegexMetaChar c then ['\\', c] else [c]) ++ escapeRegexChars rest

/-- Pass 2: `.replace(/\*\*/g, ".*")` — global leftmost replacement; the
replacement text is not rescanned by this pass. -/
def replaceDoubleStar : List Char → List Char
  | [] => []
  | '*' :: '*' :: rest => '.' :: '*' :: replaceDoubleStar rest
  | c :: rest => c :: replaceDoubleStar rest

/-- Pass 3: `.replace(/\*/g, "[^/]*")` — global leftmost replacement. -/
def replaceSingleStar : List Char → List Char
  | [] => []
  | '*' :: rest => '[' :: '^' :: '/' :: ']' :: '*' :: replaceSingleStar rest
  | c :: rest => c :: replaceSingleStar rest

/-- The full compilation pipeline of `matchesGlob` (the part between the `^`
and `$` anchors). -/
def compileGlobPattern (pattern : String) : List Char :=
  replaceSingleStar (replaceDoubleStar (escapeRegexChars pattern.toList))

/-- An atom of the compiled regex dialect. -/
inductive RAtom where
  | dot
  | nonSlash
  | lit (c : Char)
deriving DecidableEq, Repr

/-- A quantifier of the compiled regex dialect.  A lazy marker (`*?`, `??`)
does not change `RegExp.test`'s boolean result, so it is absorbed into the
greedy quantifier. -/
inductive RQuant where
  | one
  | star
  | opt
deriving DecidableEq, Repr

/-- Parse the compiled regex into quantified atoms.  `none` models a regex on
which `new RegExp` throws (e.g. a quantifier with nothing to repeat, such as
a pattern-leading `?`).  A bare `^` or `$` cannot occur here (the escaping
pass escapes both), and the only unescaped `[` is the `[^/]` class introduced
by pass 3. -/
def parseRegex : List Char → Option (List (RAtom × RQuant))
  | [] => some []
  | '\\' :: c :: '*' :: '?' :: rest =>
      (parseRegex rest).map (fun ts => (.lit c, .star) :: ts)
  | '\\' :: c :: '*' :: rest =>
      (parseRegex rest).map (fun ts => (.lit c, .star) :: ts)
  | '\\' :: c :: '?' :: '?' :: rest =>
      (parseRegex rest).map (fun ts => (.lit c, .opt) :: ts)
  | '\\' :: c :: '?' :: rest =>
      (parseRegex rest).map (fun ts => (.lit c, .opt) :: ts)
  | '\\' :: c :: rest =>
      (parseRegex rest).map (fun ts => (.lit c, .one) :: ts)
  | ['\\'] => none
  | '[' :: '^' :: '/' :: ']' :: '*' :: '?' :: rest =>
      (parseRegex rest).map (fun ts => (.nonSlash, .star) :: ts)
  | '[' :: '^' :: '/' :: ']' :: '*' :: rest =>
      (parseRegex rest).map (fun ts => (.nonSlash, .star) :: ts)
  | '[' :: '^' :: '/' :: ']' :: '?' :: '?' :: rest =>
      (parseRegex rest).map (fun ts => (.nonSlash, .opt) :: ts)
  | '[' :: '^' :: '/' :: ']' :: '?' :: rest =>
      (parseRegex rest).map (fun ts => (.nonSlash, .opt) :: ts)
  | '[' :: '^' :: '/' :: ']' :: rest =>
      (parseRegex rest).map (fun ts => (.nonSlash, .one) :: ts)
  | '[' :: _ => none
  | '.' :: '*' :: '?' :: rest =>
      (parseRegex rest).map (fun ts => (.dot, .star) :: ts)
  | '.' :: '*' :: rest =>
      (parseRegex rest).map (fun ts => (.dot, .star) :: ts)
  | '.' :: '?' :: '?' :: rest =>
      (parseRegex rest).map (fun ts => (.dot, .opt) :: ts)
  | '.' :: '?' :: rest =>
      (parseRegex rest).map (fun ts => (.dot, .opt) :: ts)
  | '.' :: rest =>
      (parseRegex rest).map (fun ts => (.dot, .one) :: ts)
  | '*' :: _ => none
  | '?' :: _ => none
  | c :: '*' :: '?' :: rest =>
      (parseRegex rest).map (fun ts => (.lit c, .star) :: ts)
  | c :: '*' :: rest =>
      (parseRegex rest).map (fun ts => (.lit c, .star) :: ts)
  | c :: '?' :: '?' :: rest =>
      (parseRegex rest).map (fun ts => (.lit c, .opt) :: ts)
  | c :: '?' :: rest =>
      (parseRegex rest).map (fun ts => (.lit c, .opt) :: ts)
  | c :: rest =>
      (parseRegex rest).map (fun ts => (.lit c, .one) :: ts)

/-- One-character semantics of an atom.  `.` in a JS regex without the `s`
flag matches any character except the four line terminators. -/
def atomMatches : RAtom → Char → Bool
  | .dot, c => !(c = '\n' || c = '\r' || c = '\u2028' || c = '\u2029')
  | .nonSlash, c => !(c = '/')
  | .lit l, c => c = l

/-- Anchored matching of quantified atoms against the input, with explicit
fuel for structural recursion; `tokens.length + input.length + 1` fuel always
suffices (every recursive call decreases `tokens.length + input.length`). -/
def matchTokens : Nat → List (RAtom × RQuant) → List Char → Bool
  | 0, _, _ => false
  | _ + 1, [], s => s.isEmpty
  | n + 1, (a, q) :: ts, s =>
      match q, s with
      | .one, [] => false
      | .one, c :: cs => atomMatches a c && matchTokens n ts cs
      | .opt, [] => matchTokens n ts []
      | .opt, c :: cs =>
          matchTokens n ts (c :: cs) || (atomMatches a c && matchTokens n ts cs)
      | .star, [] => matchTokens n ts []
      | .star, c :: cs =>
          matchTokens n ts (c :: cs)
            || (atomMatches a c && matchTokens n ((a, .star) :: ts) cs)

/-- Model of `RegExp.test` of the anchored compiled regex. -/
def regexTest (tokens : List (RAtom × RQuant)) (s : List Char) : Bool :=
  matchTokens (tokens.length + s.length + 1) tokens s

/-- Embedding of `matchesGlob` from `filter-diagnostics.ts`; `none` models a thrown
`SyntaxError` from `new RegExp`. -/
def matchesGlob (filePath pattern : String) : Option Bool :=
  (parseRegex (compileGlobPattern pattern)).map
    (fun tokens => regexTest tokens filePath.toList)

/-! ## Ignore filtering (`src/utils/filter-diagnostics.ts`,
`src/utils/combine-diagnostics.ts`) -/

/-- Embedding of `interface AngularDoctorIgnoreConfig` from `src/types.ts`. -/
structure AngularDoctorIgnoreConfig where
  rules : Option (List String) := none
  files : Option (List String) := none
deriving DecidableEq

/-- Embedding of `interface AngularDoctorConfig` from `src/types.ts`; `fast` is the
fast-mode toggle read by `mergeScanOptions`, `diff` is a boolean or an
explicit base-branch string. -/
structure AngularDoctorConfig where
  ignore : Option AngularDoctorIgnoreConfig := none
  lint : Option Bool := none
  deadCode : Option Bool := none
  verbose : Option Bool := none
  diff : Option (Bool ⊕ String) := none
  fast : Option Bool := none
deriving DecidableEq

/-- Model of `ignoredFilePatterns.some((pattern) => matchesGlob(...))`: left-to-right,
short-circuiting on the first match; a thrown `SyntaxError` (`none`)
propagates. -/
def anyGlobMatches (patterns : List String) (filePath : String) : Option Bool :=
  match patterns with
  | [] => some false
  | p :: rest =>
      match matchesGlob filePath p with
      | none => none
      | some true => some true
      | some false => anyGlobMatches rest filePath

/-- The body of the `filter` callback of `filterIgnoredDiagnostics`:
`some false` = drop, `some true` = keep, `none` = thrown. -/
def keepDiagnostic (ignoredRules ignoredFilePatterns : List String)
    (d : Diagnostic) : Option Bool :=
  if ruleKey d ∈ ignoredRules then some false
  else (anyGlobMatches ignoredFilePatterns d.filePath).map (fun m => !m)

/-- Model of `diagnostics.filter(...)` with an exception-propagating callback. -/
def filterDiagnosticsGo (ignoredRules ignoredFilePatterns : List String) :
    List Diagnostic → Option (List Diagnostic)
  | [] => some []
  | d :: rest =>
      match keepDiagnostic ignoredRules ignoredFilePatterns d with
      | none => none
      | some keep =>
          match filterDiagnosticsGo ignoredRules ignoredFilePatterns rest with
          | none => none
          | some out => some (if keep then d :: out else out)

/-- Embedding of `filterIgnoredDiagnostics` from `filter-diagnostics.ts` (the `Set` of
ignored rules is modelled by list membership). -/
def filterIgnoredDiagnostics (diagnostics : List Diagnostic)
    (config : AngularDoctorConfig) : Option (List Diagnostic) :=
  filterDiagnosticsGo
    ((config.ignore.bind AngularDoctorIgnoreConfig.rules).getD [])
    ((config.ignore.bind AngularDoctorIgnoreConfig.files).getD [])
    diagnostics

/-- Embedding of `combineDiagnostics` from `combine-diagnostics.ts`. -/
def combineDiagnostics (lintDiagnostics deadCodeDiagnostics : List Diagnostic)
    (userConfig : Option AngularDoctorConfig) : Option (List Diagnostic) :=
  let allDiagnostics := lintDiagnostics ++ deadCodeDiagnostics
  match userConfig with
  | some config => filterIgnoredDiagnostics allDiagnostics config
  | none => some allDiagnostics

/-- When the filter returns (no glob threw), it returns exactly the
order-preserving filter by the keep predicate. -/
theorem filterDiagnosticsGo_eq (ignoredRules ignoredFilePatterns : List String) :
    ∀ (l out : List Diagnostic),
      filterDiagnosticsGo ignoredRules ignoredFilePatterns l = some out →
      out = l.filter (fun d => ruleKey d ∉ ignoredRules
        ∧ anyGlobMatches ignoredFilePatterns d.filePath = some false) := by
  intro l
  induction l with
  | nil =>
    intro out h
    simp only [filterDiagnosticsGo] at h
    injection h with h
    rw [← h]
    rfl
  | cons d rest ih =>
    intro out h
    simp only [filterDiagnosticsGo] at h
    rcases hk : keepDiagnostic ignoredRules ignoredFilePatterns d with _ | keep
    · rw [hk] at h; cases h
    · rw [hk] at h
      rcases hrest : filterDiagnosticsGo ignoredRules ignoredFilePatterns rest
        with _ | out'
      · rw [hrest] at h; cases h
      · rw [hrest] at h
        injection h with h
        have hout' := ih out' hrest
        unfold keepDiagnostic at hk
        by_cases hr : ruleKey d ∈ ignoredRules
        · rw [if_pos hr] at hk
          injection hk with hk
          rw [← h, ← hk, List.filter_cons_of_neg (by simp [hr]), hout']
          simp
        · rw [if_neg hr] at hk
          rcases hg : anyGlobMatches ignoredFilePatterns d.filePath with _ | m
          · rw [hg] at hk; cases hk
          · rw [hg] at hk
            injection hk with hk
            cases m with
            | false =>
              rw [← h, ← hk, List.filter_cons_of_pos (by simp [hr, hg]), hout']
              simp
            | true =>
              rw [← h, ← hk,
                List.filter_cons_of_neg (by simp [hr, hg]), hout']
              simp

/-- C10: whenever `filterIgnoredDiagnostics` returns, its result is an
order-preserving subsequence of the input in which a diagnostic is kept iff
its rule key is not ignored and its file path matches no ignored glob; and
with no configuration, `combineDiagnostics` is exactly the concatenation of
lint diagnostics followed by dead-code diagnostics. -/
theorem claim_C10 (D : List Diagnostic) (config : AngularDoctorConfig)
    (out : List Diagnostic) (h : filterIgnoredDiagnostics D config = some out) :
    (out.Sublist D
      ∧ out = D.filter (fun d =>
          ruleKey d ∉ (config.ignore.bind AngularDoctorIgnoreConfig.rules).getD []
          ∧ anyGlobMatches
              ((config.ignore.bind AngularDoctorIgnoreConfig.files).getD [])
              d.filePath = some false))
    ∧ ∀ lintDiagnostics deadCodeDiagnostics : List Diagnostic,
        combineDiagnostics lintDiagnostics deadCodeDiagnostics none
          = some (lintDiagnostics ++ deadCodeDiagnostics) := by
  have heq := filterDiagnosticsGo_eq
    ((config.ignore.bind AngularDoctorIgnoreConfig.rules).getD [])
    ((config.ignore.bind AngularDoctorIgnoreConfig.files).getD [])
    D out h
  exact ⟨⟨heq ▸ List.filter_sublist D, heq⟩, fun _ _ => rfl⟩

/-- Configuration ignoring the rule key `p/r` and files under
`src/generated/`, for the C10 witness. -/
def cexConfig : AngularDoctorConfig :=
  { ignore := some { rules := some ["p/r"], files := some ["src/generated/**"] } }

/-- C10 witness: at `D = [cexWarning]` and `cexConfig` the filter returns
`[]`, which is the order-preserving subsequence selected by the keep
predicate. -/
theorem claim_C10_witness :
    List.Sublist ([] : List Diagnostic) [cexWarning]
      ∧ ([] : List Diagnostic) = [cexWarning].filter (fun d =>
          ruleKey d ∉ (cexConfig.ignore.bind AngularDoctorIgnoreConfig.rules).getD []
          ∧ anyGlobMatches
              ((cexConfig.ignore.bind AngularDoctorIgnoreConfig.files).getD [])
              d.filePath = some false) :=
  (claim_C10 [cexWarning] cexConfig [] (by decide)).1

/-- C4: evaluation of `matchesGlob` at the claim's inputs.  The single-`*`
semantics and anchoring behave as claimed, but `src/generated/**` fails to
match `src/generated/a/b.ts`: the `*` of the `.*` produced by the `**` pass
is rewritten again by the `*` pass, so the pattern compiles to
`^src/generated/.[^/]*$` and `**` cannot cross a path separator — the code
contradicts the documented glob semantics. -/
theorem claim_C4_code_behaviour :
    compileGlobPattern "src/generated/**" = "src/generated/.[^/]*".toList
      ∧ matchesGlob "src/generated/a/b.ts" "src/generated/**" = some false
      ∧ matchesGlob "src/generated/x.ts" "src/generated/**" = some true
      ∧ matchesGlob "src/other/x.ts" "src/generated/**" = some false
      ∧ matchesGlob "a.spec.ts" "*.spec.ts" = some true
      ∧ matchesGlob "sub/a.spec.ts" "*.spec.ts" = some false := by
  refine ⟨?_, ?_, ?_, ?_, ?_, ?_⟩ <;> decide

/-! ## Diff selection (`src/utils/discover-project.ts`)

The four read-only git queries of `getDiffInfo` are abstracted as an
environment: current branch (`none` when not a repository), ref existence,
file-level diff against a ref, and the uncommitted-changes listing. -/

/-- Embedding of `interface DiffInfo` from `src/types.ts`; the optional `isCurrentChanges`
field is absent (`false`) except in the uncommitted-changes case. -/
structure DiffInfo where
  currentBranch : String
  baseBranch : String
  changedFiles : List String
  isCurrentChanges : Bool := false
deriving DecidableEq, Repr

/-- The git queries used by `getDiffInfo`, as read-only functions. -/
structure GitEnv where
  currentBranch : Option String
  branchExists : String → Bool
  branchChangedFiles : String → List String
  uncommittedFiles : List String

/-- The `for (const candidate of DEFAULT_BRANCH_CANDIDATES)` loop of
`getDiffInfo`: first existing candidate distinct from the current branch with
a nonempty diff. -/
def findCandidateDiff (git : GitEnv) (currentBranch : String) :
    List String → Option DiffInfo
  | [] => none
  | candidate :: rest =>
      if git.branchExists candidate ∧ currentBranch ≠ candidate then
        let changedFiles := git.branchChangedFiles candidate
        if changedFiles ≠ [] then
          some { currentBranch := currentBranch, baseBranch := candidate,
                 changedFiles := changedFiles }
        else findCandidateDiff git currentBranch rest
      else findCandidateDiff git currentBranch rest

/-- The no-explicit-base path of `getDiffInfo`: uncommitted changes first,
then the default branch candidates. -/
def getDiffInfoNoBase (git : GitEnv) (currentBranch : String) : Option DiffInfo :=
  if git.uncommittedFiles ≠ [] then
    some { currentBranch := currentBranch, baseBranch := currentBranch,
           changedFiles := git.uncommittedFiles, isCurrentChanges := true }
  else
    findCandidateDiff git currentBranch DEFAULT_BRANCH_CANDIDATES

/-- Embedding of `getDiffInfo` from `discover-project.ts`.  The JS guard
`if (explicitBaseBranch)` is a truthiness test, so an empty string behaves
like an absent argument. -/
def getDiffInfo (git : GitEnv) (explicitBaseBranch : Option String) :
    Option DiffInfo :=
  match git.currentBranch with
  | none => none
  | some currentBranch =>
      match explicitBaseBranch with
      | some base =>
          if base = "" then getDiffInfoNoBase git currentBranch
          else if git.branchExists base then
            some { currentBranch := currentBranch, baseBranch := base,
                   changedFiles := git.branchChangedFiles base }
          else none
      | none => getDiffInfoNoBase git currentBranch

/-- C5: when a current branch resolves — a nonexistent explicit base yields
`null`; an existing explicit base yields a branch diff with that base (even
when empty) not tagged as uncommitted; and with no explicit base, nonempty
uncommitted changes are returned tagged as uncommitted with the current
branch as its own base, whatever the state of the default candidates. -/
theorem claim_C5 (git : GitEnv) (b : String) (h : git.currentBranch = some b) :
    (∀ base, base ≠ "" → git.branchExists base = false →
        getDiffInfo git (some base) = none)
    ∧ (∀ base, base ≠ "" → git.branchExists base = true →
        getDiffInfo git (some base)
          = some { currentBranch := b, baseBranch := base,
                   changedFiles := git.branchChangedFiles base,
                   isCurrentChanges := false })
    ∧ (git.uncommittedFiles ≠ [] →
        getDiffInfo git none
          = some { currentBranch := b, baseBranch := b,
                   changedFiles := git.uncommittedFiles,
                   isCurrentChanges := true }) := by
  refine ⟨?_, ?_, ?_⟩
  · intro base hbase hex
    unfold getDiffInfo
    rw [h]
    simp [hbase, hex]
  · intro base hbase hex
    unfold getDiffInfo
    rw [h]
    simp [hbase, hex]
  · intro hunc
    unfold getDiffInfo
    rw [h]
    simp [getDiffInfoNoBase, hunc]

/-- A concrete git environment for the C5 witness: on branch `feature`, with
an existing `dev` branch and one uncommitted change. -/
def cexGit : GitEnv :=
  { currentBranch := some "feature",
    branchExists := fun s => s = "dev",
    branchChangedFiles := fun _ => ["a.ts"],
    uncommittedFiles := ["b.ts"] }

/-- C5 witness: with no explicit base and uncommitted changes present, the
diff is the uncommitted changes tagged as such. -/
theorem claim_C5_witness :
    getDiffInfo cexGit none
      = some { currentBranch := "feature", baseBranch := "feature",
               changedFiles := cexGit.uncommittedFiles,
               isCurrentChanges := true } :=
  (claim_C5 cexGit "feature" rfl).2.2 (by decide)

/-! ## Scan option resolution (`src/scan.ts`) -/

/-- Embedding of `interface ScanOptions` (caller-supplied options; `fast` and `report` are
the extra fields read by `scan.ts`). -/
structure ScanOptions where
  lint : Option Bool := none
  deadCode : Option Bool := none
  verbose : Option Bool := none
  scoreOnly : Option Bool := none
  report : Option Bool := none
  fast : Option Bool := none
  includePaths : Option (List String) := none
deriving DecidableEq

/-- Embedding of `interface ResolvedScanOptions` from `scan.ts`. -/
structure ResolvedScanOptions where
  lint : Bool
  deadCode : Bool
  verbose : Bool
  scoreOnly : Bool
  report : Bool
  useTypeAwareLint : Bool
  includePaths : List String
deriving DecidableEq

/-- The `fastMode` local of `mergeScanOptions`:
`inputOptions.fast ?? userConfig?.fast ?? false`. -/
def fastModeEnabled (inputOptions : ScanOptions)
    (userConfig : Option AngularDoctorConfig) : Bool :=
  inputOptions.fast.getD ((userConfig.bind AngularDoctorConfig.fast).getD false)

/-- Embedding of `mergeScanOptions` from `scan.ts` (`??` is modelled by `Option.getD`). -/
def mergeScanOptions (inputOptions : ScanOptions)
    (userConfig : Option AngularDoctorConfig) : ResolvedScanOptions :=
  let fastMode := fastModeEnabled inputOptions userConfig
  { lint := inputOptions.lint.getD ((userConfig.bind AngularDoctorConfig.lint).getD true)
    deadCode := if fastMode then false
      else inputOptions.deadCode.getD
        ((userConfig.bind AngularDoctorConfig.deadCode).getD true)
    verbose := inputOptions.verbose.getD
      ((userConfig.bind AngularDoctorConfig.verbose).getD false)
    scoreOnly := inputOptions.scoreOnly.getD false
    report := inputOptions.report.getD false
    useTypeAwareLint := !fastMode
    includePaths := inputOptions.includePaths.getD [] }

/-- C6: fast mode (enabled by the caller or the configuration) forces
dead-code detection and type-aware lint off regardless of other settings;
otherwise each toggle resolves caller value, else configuration value, else
hard-coded default. -/
theorem claim_C6 (opts : ScanOptions) (cfg : Option AngularDoctorConfig) :
    (fastModeEnabled opts cfg = true →
      (mergeScanOptions opts cfg).deadCode = false
        ∧ (mergeScanOptions opts cfg).useTypeAwareLint = false)
    ∧ (fastModeEnabled opts cfg = false →
        (mergeScanOptions opts cfg).lint
            = opts.lint.getD ((cfg.bind AngularDoctorConfig.lint).getD true)
          ∧ (mergeScanOptions opts cfg).deadCode
            = opts.deadCode.getD ((cfg.bind AngularDoctorConfig.deadCode).getD true)
          ∧ (mergeScanOptions opts cfg).verbose
            = opts.verbose.getD ((cfg.bind AngularDoctorConfig.verbose).getD false)) := by
  constructor
  · intro hf
    unfold mergeScanOptions
    simp [hf]
  · intro hf
    unfold mergeScanOptions
    simp [hf]

/-- Caller options enabling fast mode while also asking for dead code, for
the C6 witness. -/
def cexFastOptions : ScanOptions :=
  { lint := some true, deadCode := some true, fast := some true }

/-- C6 witness: with `fast: true` and `deadCode: true` supplied by the
caller and no configuration, dead code and type-aware lint are still forced
off. -/
theorem claim_C6_witness :
    (mergeScanOptions cexFastOptions none).deadCode = false
      ∧ (mergeScanOptions cexFastOptions none).useTypeAwareLint = false :=
  (claim_C6 cexFastOptions none).1 rfl

/-! ## Analyzer orchestration (`src/scan.ts`)

The two analyzer invocations (`runEslint`, `runKnip`) are modelled by their
outcomes: `Except.ok diagnostics` for a normal return, `Except.error` for a
thrown failure.  The surrounding `try/catch` logic, the skipped-check
bookkeeping and the combination step are embedded from the body of `scan`.
`none` models the only remaining escape: a glob `SyntaxError` thrown by the
ignore filter. -/

/-- Embedding of `interface ScanResult` from `src/types.ts`. -/
structure ScanResult where
  diagnostics : List Diagnostic
  scoreResult : Option ScoreResult
  skippedChecks : List String
deriving DecidableEq

/-- The diagnostic pipeline of `scan`: run lint (unless disabled), catching a
thrown failure as zero diagnostics plus a failure flag; run dead-code
detection (unless disabled or in diff mode) likewise; combine and filter;
record skipped checks in the order lint, dead code; score the result. -/
def runScanPipeline (options : ResolvedScanOptions)
    (userConfig : Option AngularDoctorConfig)
    (lintOutcome deadCodeOutcome : Except String (List Diagnostic)) :
    Option ScanResult :=
  let lintRun : List Diagnostic × Bool :=
    if options.lint = false then ([], false)
    else match lintOutcome with
      | .ok diags => (diags, false)
      | .error _ => ([], true)
  let deadRun : List Diagnostic × Bool :=
    if options.deadCode = false ∨ options.includePaths.length > 0 then ([], false)
    else match deadCodeOutcome with
      | .ok diags => (diags, false)
      | .error _ => ([], true)
  (combineDiagnostics lintRun.1 deadRun.1 userConfig).map (fun diagnostics =>
    let skippedChecks :=
      (if lintRun.2 then ["lint"] else []) ++ (if deadRun.2 then ["dead code"] else [])
    { diagnostics := diagnostics,
      scoreResult := some (calculateScore diagnostics),
      skippedChecks := skippedChecks })

/-- C7: a thrown analyzer failure is caught, contributes zero diagnostics and
its name to `skippedChecks`, leaving everything else (including the other
analyzer's contribution) as if it had returned `[]`; the pipeline always
returns a `ScanResult` when no configuration is loaded; and an analyzer that
does not throw is never recorded as skipped. -/
theorem claim_C7 (opts : ResolvedScanOptions) (cfg : Option AngularDoctorConfig)
    (lintOutcome deadCodeOutcome : Except String (List Diagnostic)) :
    (opts.lint = true → ∀ msg,
        runScanPipeline opts cfg (.error msg) deadCodeOutcome
          = (runScanPipeline opts cfg (.ok []) deadCodeOutcome).map
              (fun r => { r with skippedChecks := "lint" :: r.skippedChecks }))
    ∧ (opts.deadCode = true → opts.includePaths = [] → ∀ msg,
        runScanPipeline opts cfg lintOutcome (.error msg)
          = (runScanPipeline opts cfg lintOutcome (.ok [])).map
              (fun r => { r with skippedChecks := r.skippedChecks ++ ["dead code"] }))
    ∧ (cfg = none →
        (runScanPipeline opts cfg lintOutcome deadCodeOutcome).isSome = true)
    ∧ (∀ ds r, lintOutcome = .ok ds →
        runScanPipeline opts cfg lintOutcome deadCodeOutcome = some r →
        "lint" ∉ r.skippedChecks)
    ∧ (∀ ds r, deadCodeOutcome = .ok ds →
        runScanPipeline opts cfg lintOutcome deadCodeOutcome = some r →
        "dead code" ∉ r.skippedChecks) := by
  refine ⟨?_, ?_, ?_, ?_, ?_⟩
  · intro hlint msg
    unfold runScanPipeline
    simp only [hlint]
    norm_num
    rcases hcomb : combineDiagnostics []
      (if opts.deadCode = false ∨ opts.includePaths.length > 0 then ([], false)
        else match deadCodeOutcome with
          | .ok diags => (diags, false)
          | .error _ => ([], true)).1 cfg with _ | ds
    · simp [hcomb]
    · simp [hcomb]
  · intro hdead hdiff msg
    unfold runScanPipeline
    simp only [hdead, hdiff]
    norm_num
    rcases hcomb : combineDiagnostics
      (if opts.lint = false then ([], false)
        else match lintOutcome with
          | .ok diags => (diags, false)
          | .error _ => ([], true)).1 [] cfg with _ | ds
    · simp [hcomb]
    · simp [hcomb]
  · intro hcfg
    subst hcfg
    unfold runScanPipeline combineDiagnostics
    simp
  · intro ds r hok hsome
    subst hok
    unfold runScanPipeline at hsome
    by_cases hl : opts.lint = false <;>
      by_cases hd : opts.deadCode = false ∨ opts.includePaths.length > 0 <;>
        cases deadCodeOutcome <;>
          · simp only [hl, hd, if_true, if_false, Option.map_eq_some', reduceIte,
              ite_true, ite_false, eq_self_iff_true, not_false_iff] at hsome
            rcases hsome with ⟨ds', hcomb, hr⟩
            rw [← hr]
            simp
  · intro ds r hok hsome
    subst hok
    unfold runScanPipeline at hsome
    by_cases hl : opts.lint = false <;>
      by_cases hd : opts.deadCode = false ∨ opts.includePaths.length > 0 <;>
        cases lintOutcome <;>
          · simp only [hl, hd, if_true, if_false, Option.map_eq_some', reduceIte,
              ite_true, ite_false, eq_self_iff_true, not_false_iff] at hsome
            rcases hsome with ⟨ds', hcomb, hr⟩
            rw [← hr]
            simp

/-- Resolved options with both analyzers enabled, for the C7 witness. -/
def cexResolvedOptions : ResolvedScanOptions :=
  { lint := true, deadCode := true, verbose := false, scoreOnly := false,
    report := false, useTypeAwareLint := true, includePaths := [] }

/-- C7 witness: a lint failure is equivalent to lint returning no diagnostics
plus a leading `"lint"` entry in the skipped checks. -/
theorem claim_C7_witness :
    runScanPipeline cexResolvedOptions none (.error "boom") (.ok [cexWarning])
      = (runScanPipeline cexResolvedOptions none (.ok []) (.ok [cexWarning])).map
          (fun r => { r with skippedChecks := "lint" :: r.skippedChecks }) :=
  (claim_C7 cexResolvedOptions none (.error "boom") (.ok [cexWarning])).1 rfl "boom"

/-! ## Dead-code analyzer retry loop (`src/utils/run-knip.ts`)

The `for (let attempt = 0; attempt <= MAX_KNIP_RETRIES; attempt++)` loop of
`runKnipWithOptions`, with the knip invocation abstracted as a function of
the set of disabled plugin configs (`parsedConfig[failedPlugin] = false`) and
the error-message plugin extraction (`extractFailedPluginName`) abstracted as
a function on errors.  The loop result is paired with the number of attempts
made. -/

def runKnipRetryLoop {ε ρ : Type} (runAttempt : List String → Except ε ρ)
    (extractFailedPluginName : ε → Option String) :
    Nat → List String → Except ε ρ × Nat
  | 0, disabledPlugins =>
      match runAttempt disabledPlugins with
      | .ok results => (.ok results, 1)
      | .error e => (.error e, 1)
  | m + 1, disabledPlugins =>
      match runAttempt disabledPlugins with
      | .ok results => (.ok results, 1)
      | .error e =>
          match extractFailedPluginName e with
          | none => (.error e, 1)
          | some p =>
              let rest := runKnipRetryLoop runAttempt extractFailedPluginName m
                (disabledPlugins ++ [p])
              (rest.1, rest.2 + 1)

/-- The retry loop of `runKnipWithOptions`, entered with `MAX_KNIP_RETRIES`
retries remaining and no plugin disabled. -/
def runKnipWithOptions {ε ρ : Type} (runAttempt : List String → Except ε ρ)
    (extractFailedPluginName : ε → Option String) : Except ε ρ × Nat :=
  runKnipRetryLoop runAttempt extractFailedPluginName MAX_KNIP_RETRIES []

theorem runKnipRetryLoop_spec {ε ρ : Type} (runAttempt : List String → Except ε ρ)
    (extract : ε → Option String) :
    ∀ (remaining : Nat) (disabled : List String),
      (runKnipRetryLoop runAttempt extract remaining disabled).2 ≤ remaining + 1
      ∧ (∀ e, (runKnipRetryLoop runAttempt extract remaining disabled).1 = .error e →
          extract e = none
            ∨ (runKnipRetryLoop runAttempt extract remaining disabled).2
                = remaining + 1) := by
  intro remaining
  induction remaining with
  | zero =>
    intro disabled
    unfold runKnipRetryLoop
    rcases hrun : runAttempt disabled with e | results <;> simp
  | succ m ih =>
    intro disabled
    unfold runKnipRetryLoop
    rcases hrun : runAttempt disabled with e | results
    · rcases hext : extract e with _ | p
      · simp only [hext]
        refine ⟨?_, fun e' he' => ?_⟩
        · show (1 : Nat) ≤ m + 1 + 1
          omega
        · have h1 : @Except.error ε ρ e = Except.error e' := he'
          injection h1 with h1
          subst h1
          exact Or.inl hext
      · simp only [hext]
        obtain ⟨hbound, herr⟩ := ih (disabled ++ [p])
        refine ⟨?_, fun e' he' => ?_⟩
        · show (runKnipRetryLoop runAttempt extract m (disabled ++ [p])).2 + 1
            ≤ m + 1 + 1
          omega
        · have he'' : (runKnipRetryLoop runAttempt extract m (disabled ++ [p])).1
              = .error e' := he'
          rcases herr e' he'' with hnone | hcount
          · exact Or.inl hnone
          · refine Or.inr ?_
            show (runKnipRetryLoop runAttempt extract m (disabled ++ [p])).2 + 1
              = m + 1 + 1
            omega
    · refine ⟨?_, fun e' he' => ?_⟩
      · show (1 : Nat) ≤ m + 1 + 1
        omega
      · exact Except.noConfusion he'

/-- C8: the dead-code retry loop makes at most `MAX_KNIP_RETRIES + 1`
attempts; it only re-raises when the failure identifies no plugin config or
when the retry ceiling is exhausted; and on a recognised failure below the
ceiling it retries with that plugin disabled. -/
theorem claim_C8 {ε ρ : Type} (runAttempt : List String → Except ε ρ)
    (extract : ε → Option String) :
    ((runKnipWithOptions runAttempt extract).2 ≤ MAX_KNIP_RETRIES + 1)
    ∧ (∀ e, (runKnipWithOptions runAttempt extract).1 = .error e →
        extract e = none
          ∨ (runKnipWithOptions runAttempt extract).2 = MAX_KNIP_RETRIES + 1)
    ∧ (∀ (m : Nat) (disabled : List String) (e : ε) (p : String),
        runAttempt disabled = .error e → extract e = some p →
        runKnipRetryLoop runAttempt extract (m + 1) disabled
          = ((runKnipRetryLoop runAttempt extract m (disabled ++ [p])).1,
             (runKnipRetryLoop runAttempt extract m (disabled ++ [p])).2 + 1)) := by
  obtain ⟨hbound, herr⟩ := runKnipRetryLoop_spec runAttempt extract MAX_KNIP_RETRIES []
  refine ⟨hbound, herr, ?_⟩
  intro m disabled e p hrun hext
  simp [runKnipRetryLoop, hrun, hext]

/-- A knip invocation that always fails with a recognised plugin error, for
the C8 witness. -/
def cexKnipRun : List String → Except String Unit :=
  fun _ => .error "Error loading angular config"

/-- The plugin extraction for the C8 witness. -/
def cexKnipExtract : String → Option String :=
  fun _ => some "angular"

/-- C8 witness: when every attempt fails with a recognised plugin error, the
error is re-raised exactly at the retry ceiling, after
`MAX_KNIP_RETRIES + 1` attempts. -/
theorem claim_C8_witness :
    cexKnipExtract "Error loading angular config" = none
      ∨ (runKnipWithOptions cexKnipRun cexKnipExtract).2 = MAX_KNIP_RETRIES + 1 :=
  (claim_C8 cexKnipRun cexKnipExtract).2.1 "Error loading angular config" rfl

end AngularDoctor
